import Mathlib

/-!
Verification of the Game-of-Life engine in `src/src/lib.rs`
(`GameOfLife` in module `game_of_life_view`).

The engine state is the struct `GameOfLife { running, board, board_x,
board_y }`: a flat row-major board of `usize` cell values (0 = dead,
1 = alive) indexed by `y * board_x + x`, plus a run flag.  The Rust
operations are embedded as follows:

* `new board_x board_y` — the state built by `GameOfLife::new`
  (`running = false`, `board = vec![0; board_x * board_y]`);
* `start` / `stop` — set the run flag;
* `get_neighbors g i` — the eight flat indices produced by
  `GameOfLife::get_neighbors`, using `Int.emod` for Rust's
  `i32::rem_euclid`;
* `step g` — `GameOfLife::step`: when running, every cell of the new
  board is computed from the *old* board (the Rust code clones the board
  and reads only `self.board`), otherwise the state is unchanged;
* `toggle_cell` / `set_cell` return `Option (GameOfLife × Bool)`:
  `some (g, false)` models the early `return false` taken while running,
  `some (g', true)` a completed edit, and `none` the Rust panic raised by
  `self.board[y * self.board_x + x]` when the flat index is out of range
  (the Rust code performs no bounds check of its own).

Rust's `1 - self.board[i]` on `usize` is embedded as truncated `Nat`
subtraction; the two agree on the values 0 and 1, which are the only
cell values reachable (proved below as the grid invariant).
-/

/-- State of the Rust struct `GameOfLife`. -/
structure GameOfLife where
  running : Bool
  board : List Nat
  board_x : Nat
  board_y : Nat
  deriving Repr, DecidableEq

/-- `GameOfLife::new`: all-dead board of `board_x * board_y` cells, not
running.  The Rust constructor performs no validation of the dimensions. -/
def GameOfLife.new (board_x board_y : Nat) : GameOfLife :=
  { running := false
    board := List.replicate (board_x * board_y) 0
    board_x := board_x
    board_y := board_y }

/-- `GameOfLife::start`. -/
def GameOfLife.start (g : GameOfLife) : GameOfLife :=
  { g with running := true }

/-- `GameOfLife::stop`. -/
def GameOfLife.stop (g : GameOfLife) : GameOfLife :=
  { g with running := false }

/-- The constant `DIRECTIONS` of `GameOfLife::get_neighbors`. -/
def DIRECTIONS : List (Int × Int) :=
  [(-1, -1), (-1, 0), (-1, 1), (0, -1), (0, 1), (1, -1), (1, 0), (1, 1)]

/-- `GameOfLife::get_neighbors`: decompose the flat index `i` into
`x = i % board_x`, `y = i / board_x`, then map each direction to the flat
index of the wrapped neighbor.  `Int.emod` (Lean's `%` on `Int`) is the
Euclidean remainder, exactly Rust's `rem_euclid`. -/
def GameOfLife.get_neighbors (g : GameOfLife) (i : Nat) : List Nat :=
  let x : Int := (i % g.board_x : Nat)
  let y : Int := (i / g.board_x : Nat)
  DIRECTIONS.map (fun d =>
    ((y + d.2) % (g.board_y : Int)).toNat * g.board_x
      + ((x + d.1) % (g.board_x : Int)).toNat)

/-- The neighbor count computed inside `GameOfLife::step`:
`neighbors.iter().map(|index| self.board[*index]).sum()`, reading the
old board. -/
def GameOfLife.liveCount (g : GameOfLife) (i : Nat) : Nat :=
  ((g.get_neighbors i).map (fun j => g.board.getD j 0)).sum

/-- `GameOfLife::step`: when running, rebuild the whole board from the
old one (the Rust code writes into a clone while reading only
`self.board`); when stopped, do nothing. -/
def GameOfLife.step (g : GameOfLife) : GameOfLife :=
  if g.running then
    { g with
      board := (List.range g.board.length).map (fun i =>
        let value := g.board.getD i 0
        let count := g.liveCount i
        if value = 1 ∧ (2 ≤ count ∧ count ≤ 3) ∨ value = 0 ∧ count = 3
        then 1 else 0) }
  else g

/-- `GameOfLife::toggle_cell`.  While running it returns `false` at once,
touching nothing.  Otherwise it writes `1 - board[y*board_x + x]` at the
flat index; an index outside the board is the Rust panic, `none`. -/
def GameOfLife.toggle_cell (g : GameOfLife) (x y : Nat) :
    Option (GameOfLife × Bool) :=
  if g.running then some (g, false)
  else if y * g.board_x + x < g.board.length then
    some ({ g with
      board := g.board.set (y * g.board_x + x)
        (1 - g.board.getD (y * g.board_x + x) 0) }, true)
  else none

/-- `GameOfLife::set_cell`.  Same guard and indexing as `toggle_cell`;
writes `value as usize`. -/
def GameOfLife.set_cell (g : GameOfLife) (x y : Nat) (value : Bool) :
    Option (GameOfLife × Bool) :=
  if g.running then some (g, false)
  else if y * g.board_x + x < g.board.length then
    some ({ g with
      board := g.board.set (y * g.board_x + x)
        (if value then 1 else 0) }, true)
  else none

/-!
Spec-side definitions, for the refinement claims C1 and C2.  These follow
the wording of the specification, not the code: the eight neighbor
offsets are the nonzero elements of `{-1,0,1}²` and a neighbor is the
coordinate pair `((x+dx) mod W, (y+dy) mod H)` under the strictly
non-negative (Euclidean) modulus.
-/

/-- The spec's offset set `{-1,0,1}² \ {(0,0)}`, enumerated
lexicographically. -/
def specOffsets : List (Int × Int) :=
  [(-1, -1), (-1, 0), (-1, 1), (0, -1), (0, 1), (1, -1), (1, 0), (1, 1)]

/-- The spec's toroidal neighborhood of the cell at column `x`, row `y`
on a `W`-by-`H` board: the eight coordinate pairs
`((x+dx) mod W, (y+dy) mod H)` with Euclidean modulus. -/
def specNeighbors (W H x y : Nat) : List (Nat × Nat) :=
  specOffsets.map (fun d =>
    ((((x : Int) + d.1) % (W : Int)).toNat,
     (((y : Int) + d.2) % (H : Int)).toNat))

/-- The spec's `n` for the cell at `(x, y)`: the count of live cells
among its eight toroidal neighbors (with multiplicity, as the eight
offsets are applied one by one). -/
def specLiveNeighborCount (g : GameOfLife) (x y : Nat) : Nat :=
  ((specNeighbors g.board_x g.board_y x y).filter
    (fun p => g.board.getD (p.2 * g.board_x + p.1) 0 = 1)).length

/-- The grid invariant of the spec's data model: every cell value is 0
or 1, and the flat board has exactly `board_x * board_y` entries. -/
def GridInv (g : GameOfLife) : Prop :=
  (∀ v ∈ g.board, v = 0 ∨ v = 1) ∧
    g.board.length = g.board_x * g.board_y

/-- An operation of the engine's public surface, for reachability
statements over arbitrary call sequences. -/
inductive Op where
  | step : Op
  | start : Op
  | stop : Op
  | toggle : Nat → Nat → Op
  | set : Nat → Nat → Bool → Op
  deriving Repr, DecidableEq

/-- Apply one operation; `none` is a panic (out-of-range edit index). -/
def applyOp (g : GameOfLife) : Op → Option GameOfLife
  | Op.step => some g.step
  | Op.start => some g.start
  | Op.stop => some g.stop
  | Op.toggle x y => (g.toggle_cell x y).map Prod.fst
  | Op.set x y v => (g.set_cell x y v).map Prod.fst

/-- Run a sequence of operations from a state; a panic aborts the run. -/
def run (g : GameOfLife) : List Op → Option GameOfLife
  | [] => some g
  | op :: ops =>
    match applyOp g op with
    | some g' => run g' ops
    | none => none

/-!  Helper lemmas shared by the claim theorems. -/

/-- The flat index of in-range coordinates is inside the board. -/
theorem flat_index_lt (W H x y : Nat) (hx : x < W) (hy : y < H) :
    y * W + x < W * H := by
  calc y * W + x < (y + 1) * W := by rw [Nat.succ_mul]; omega
    _ ≤ H * W := Nat.mul_le_mul_right _ hy
    _ = W * H := Nat.mul_comm _ _

/-- Column recovery from the flat index. -/
theorem flat_index_mod (W x y : Nat) (hx : x < W) :
    (y * W + x) % W = x := by
  rw [Nat.add_comm, Nat.add_mul_mod_self_right]
  exact Nat.mod_eq_of_lt hx

/-- Row recovery from the flat index. -/
theorem flat_index_div (W x y : Nat) (hx : x < W) :
    (y * W + x) / W = y := by
  rw [Nat.add_comm, Nat.add_mul_div_right _ _ (Nat.zero_lt_of_lt hx),
    Nat.div_eq_of_lt hx, Nat.zero_add]

/-- `get_neighbors`, called at an in-range flat index, produces exactly
the flat indices of the spec's eight toroidal neighbor coordinates. -/
theorem get_neighbors_eq_spec (g : GameOfLife) (x y : Nat)
    (hx : x < g.board_x) (_hy : y < g.board_y) :
    g.get_neighbors (y * g.board_x + x) =
      (specNeighbors g.board_x g.board_y x y).map
        (fun p => p.2 * g.board_x + p.1) := by
  unfold GameOfLife.get_neighbors specNeighbors
  rw [flat_index_mod _ _ _ hx, flat_index_div _ _ _ hx, List.map_map]
  rfl

/-- A sum of 0/1 values over a list is the number of entries mapped
to 1. -/
theorem sum_binary_eq_count {α : Type} (l : List α) (f : α → Nat)
    (hf : ∀ a ∈ l, f a = 0 ∨ f a = 1) :
    (l.map f).sum = (l.filter (fun a => f a = 1)).length := by
  induction l with
  | nil => rfl
  | cons a l ih =>
    have ha := hf a (List.mem_cons_self a l)
    have ih' := ih (fun b hb => hf b (List.mem_cons_of_mem a hb))
    rcases ha with h0 | h1
    · simp [List.filter_cons, h0, ih']
    · simp [List.filter_cons, h1, ih', Nat.add_comm]

/-- Every value read from a 0/1 board with default 0 is 0 or 1. -/
theorem getD_binary (l : List Nat) (hl : ∀ v ∈ l, v = 0 ∨ v = 1)
    (j : Nat) : l.getD j 0 = 0 ∨ l.getD j 0 = 1 := by
  by_cases hj : j < l.length
  · rw [List.getD_eq_getElem _ _ hj]
    exact hl _ (List.getElem_mem hj)
  · left
    exact List.getD_eq_default _ _ (Nat.le_of_not_lt hj)

/-- The neighbor sum of `step` agrees with the spec's live-neighbor
count on a 0/1 board. -/
theorem liveCount_eq_spec (g : GameOfLife) (x y : Nat)
    (hvals : ∀ v ∈ g.board, v = 0 ∨ v = 1)
    (hx : x < g.board_x) (hy : y < g.board_y) :
    g.liveCount (y * g.board_x + x) = specLiveNeighborCount g x y := by
  unfold GameOfLife.liveCount specLiveNeighborCount
  rw [get_neighbors_eq_spec g x y hx hy, List.map_map]
  simp only [Function.comp_def]
  rw [sum_binary_eq_count _ _ (fun p _ => getD_binary _ hvals _)]

/-- Reading back an index just written. -/
theorem getD_set_self (l : List Nat) (i a d : Nat) (h : i < l.length) :
    (l.set i a).getD i d = a := by
  rw [List.getD_eq_getElem _ _ (by simpa using h)]
  exact List.getElem_set_self _

/-- C4: for every engine in the Stopped state, calling `step()` any
number of times leaves the state (in particular the grid) byte-for-byte
identical; `step` is a total function, so it never fails. -/
theorem step_noop_while_stopped (g : GameOfLife) (h : g.running = false) :
    ∀ n : Nat, GameOfLife.step^[n] g = g := by
  intro n
  apply Function.iterate_fixed
  simp [GameOfLife.step, h]

/-- Witness for C4: five steps on a freshly built (stopped) 3×3 engine
change nothing. -/
theorem step_noop_while_stopped_witness :
    GameOfLife.step^[5] (GameOfLife.new 3 3) = GameOfLife.new 3 3 :=
  step_noop_while_stopped (GameOfLife.new 3 3) rfl 5

/-- C10: while the engine is Running, `toggle_cell` and `set_cell`
return the failure flag immediately for every coordinate pair, including
out-of-range ones, without reading or writing any grid cell: the result
is `some (g, false)` — no panic, state unchanged. -/
theorem running_edits_rejected_unconditionally (g : GameOfLife)
    (x y : Nat) (v : Bool) (h : g.running = true) :
    g.toggle_cell x y = some (g, false) ∧
      g.set_cell x y v = some (g, false) := by
  constructor <;> simp [GameOfLife.toggle_cell, GameOfLife.set_cell, h]

/-- Witness for C10: a running 2×2 engine rejects an edit at the wildly
out-of-range coordinates (7, 9) without crashing or changing state. -/
theorem running_edits_rejected_witness :
    (GameOfLife.new 2 2).start.toggle_cell 7 9 =
      some ((GameOfLife.new 2 2).start, false) ∧
    (GameOfLife.new 2 2).start.set_cell 7 9 true =
      some ((GameOfLife.new 2 2).start, false) :=
  running_edits_rejected_unconditionally _ 7 9 true rfl

/-- C3: after `start()` every in-bounds `toggle_cell`/`set_cell` fails
(returns the `false` flag, the code's `EditWhileRunning` signal) and
leaves the grid unchanged; after `stop()` the same calls succeed. -/
theorem edit_guard (g : GameOfLife) (x y : Nat) (v : Bool)
    (hlen : g.board.length = g.board_x * g.board_y)
    (hx : x < g.board_x) (hy : y < g.board_y) :
    g.start.toggle_cell x y = some (g.start, false) ∧
    g.start.set_cell x y v = some (g.start, false) ∧
    (∃ g1, g.stop.toggle_cell x y = some (g1, true)) ∧
    (∃ g2, g.stop.set_cell x y v = some (g2, true)) := by
  have hidx : y * g.board_x + x < g.board.length := by
    rw [hlen]; exact flat_index_lt _ _ _ _ hx hy
  refine ⟨?_, ?_, ?_, ?_⟩
  · simp [GameOfLife.start, GameOfLife.toggle_cell]
  · simp [GameOfLife.start, GameOfLife.set_cell]
  · exact ⟨{ g with
        running := false
        board := g.board.set (y * g.board_x + x)
          (1 - g.board.getD (y * g.board_x + x) 0) },
      by simp [GameOfLife.stop, GameOfLife.toggle_cell, hidx]⟩
  · exact ⟨{ g with
        running := false
        board := g.board.set (y * g.board_x + x) (if v then 1 else 0) },
      by simp [GameOfLife.stop, GameOfLife.set_cell, hidx]⟩

/-- Witness for C3: concrete edit guard on a 3×3 engine at (1, 2). -/
theorem edit_guard_witness :
    (GameOfLife.new 3 3).start.toggle_cell 1 2 =
      some ((GameOfLife.new 3 3).start, false) ∧
    (GameOfLife.new 3 3).start.set_cell 1 2 true =
      some ((GameOfLife.new 3 3).start, false) ∧
    (∃ g1, (GameOfLife.new 3 3).stop.toggle_cell 1 2 = some (g1, true)) ∧
    (∃ g2, (GameOfLife.new 3 3).stop.set_cell 1 2 true = some (g2, true)) :=
  edit_guard (GameOfLife.new 3 3) 1 2 true (by decide) (by decide) (by decide)

/-- Counterexample to C6: `GameOfLife::new` performs no dimension
validation — at width 0 it succeeds and hands back a degenerate engine
with an empty board instead of failing with `InvalidDimensions`. -/
theorem new_zero_width_no_error :
    GameOfLife.new 0 5 =
      { running := false, board := [], board_x := 0, board_y := 5 } := by
  decide

/-- C6 as amended: construction never fails — for every pair of
dimensions, including zero, it yields an engine whose grid is all-dead
of length `width * height` and whose run state is Stopped. -/
theorem new_always_succeeds_all_dead (w h : Nat) :
    (GameOfLife.new w h).running = false ∧
    (GameOfLife.new w h).board.length = w * h ∧
    ∀ v ∈ (GameOfLife.new w h).board, v = 0 := by
  refine ⟨rfl, by simp [GameOfLife.new], ?_⟩
  intro v hv
  exact List.eq_of_mem_replicate hv

/-- Counterexample to C5: on a stopped 3×3 engine, `toggle_cell(5, 0)` —
with `x = 5 ≥ width = 3` — does not fail with any out-of-bounds error:
it succeeds and flips the cell at flat index `0*3+5 = 5`, i.e. the cell
at coordinates (2, 1). -/
theorem toggle_out_of_range_succeeds :
    (GameOfLife.new 3 3).toggle_cell 5 0 =
      some ({ running := false, board := [0, 0, 0, 0, 0, 1, 0, 0, 0],
              board_x := 3, board_y := 3 }, true) := by
  decide

/-- C5 as amended: `toggle_cell` and `set_cell` perform no bounds check.
While Stopped, a call whose flat index `y*width + x` lands inside the
board succeeds and edits that cell even when `x ≥ width`; a call whose
flat index lands outside the board panics (`none`) instead of returning
a recoverable error.  (The code exposes no separate cell query.) -/
theorem edits_have_no_bounds_check (g : GameOfLife) (x y : Nat) (v : Bool)
    (hrun : g.running = false) (_hx : g.board_x ≤ x)
    (hidx : y * g.board_x + x < g.board.length) :
    (∃ g1, g.toggle_cell x y = some (g1, true) ∧
      g1.board.getD (y * g.board_x + x) 0 =
        1 - g.board.getD (y * g.board_x + x) 0) ∧
    (∃ g2, g.set_cell x y v = some (g2, true)) ∧
    (∀ x2 y2, g.board.length ≤ y2 * g.board_x + x2 →
      g.toggle_cell x2 y2 = none ∧ g.set_cell x2 y2 v = none) := by
  refine ⟨?_, ?_, ?_⟩
  · exact ⟨{ g with
        board := g.board.set (y * g.board_x + x)
          (1 - g.board.getD (y * g.board_x + x) 0) },
      by simp [GameOfLife.toggle_cell, hrun, hidx],
      getD_set_self _ _ _ _ hidx⟩
  · exact ⟨{ g with
        board := g.board.set (y * g.board_x + x) (if v then 1 else 0) },
      by simp [GameOfLife.set_cell, hrun, hidx]⟩
  · intro x2 y2 h2
    constructor <;>
      simp [GameOfLife.toggle_cell, GameOfLife.set_cell, hrun,
        Nat.not_lt.mpr h2]

/-- Witness for C5 as amended: the stopped 3×3 engine with `x = 5`,
`y = 0` (flat index 5, inside the 9-cell board). -/
theorem edits_have_no_bounds_check_witness :
    (∃ g1, (GameOfLife.new 3 3).toggle_cell 5 0 = some (g1, true) ∧
      g1.board.getD (0 * (GameOfLife.new 3 3).board_x + 5) 0 =
        1 - (GameOfLife.new 3 3).board.getD
          (0 * (GameOfLife.new 3 3).board_x + 5) 0) ∧
    (∃ g2, (GameOfLife.new 3 3).set_cell 5 0 true = some (g2, true)) ∧
    (∀ x2 y2, (GameOfLife.new 3 3).board.length ≤
        y2 * (GameOfLife.new 3 3).board_x + x2 →
      (GameOfLife.new 3 3).toggle_cell x2 y2 = none ∧
        (GameOfLife.new 3 3).set_cell x2 y2 true = none) :=
  edits_have_no_bounds_check (GameOfLife.new 3 3) 5 0 true rfl
    (by decide) (by decide)

/-- A running 5×5 engine holding a 2×2 block away from the edges:
live cells at (1,1), (2,1), (1,2), (2,2). -/
def block5 : GameOfLife :=
  { running := true
    board := [0, 0, 0, 0, 0,
              0, 1, 1, 0, 0,
              0, 1, 1, 0, 0,
              0, 0, 0, 0, 0,
              0, 0, 0, 0, 0]
    board_x := 5
    board_y := 5 }

/-- A running 2×2 engine whose whole board is the 2×2 block. -/
def block2 : GameOfLife :=
  { running := true, board := [1, 1, 1, 1], board_x := 2, board_y := 2 }

/-- Counterexample to C8: on the exact 2×2 toroidal board each cell's
eight wrapped neighbor slots are all alive, so each cell counts 8 live
neighbors and dies — one step turns the fully-alive block into the
all-dead grid, so the block is not a still life there. -/
theorem block_on_2x2_torus_dies :
    block2.step =
      { running := true, board := [0, 0, 0, 0],
        board_x := 2, board_y := 2 } := by
  decide

/-- C8 as amended: the 2×2 fully-alive block on a 5×5 board, placed away
from the edges, is unchanged by any number of steps; on the exact 2×2
toroidal board the same block instead dies out in one step (every cell
sees 8 live neighbor slots through the wrap-around). -/
theorem block_still_life_on_5x5 :
    (∀ n : Nat, GameOfLife.step^[n] block5 = block5) ∧
    block2.step.board = [0, 0, 0, 0] := by
  constructor
  · intro n
    apply Function.iterate_fixed
    decide
  · decide

/-- C9: while Stopped, an in-bounds `toggle_cell` applied twice returns
the cell to its original value, and `set_cell(x, y, true)` twice is
idempotent — the second call leaves the grid exactly as the first
left it. -/
theorem toggle_twice_and_set_idempotent (g : GameOfLife) (x y : Nat)
    (hrun : g.running = false)
    (hvals : ∀ v ∈ g.board, v = 0 ∨ v = 1)
    (hlen : g.board.length = g.board_x * g.board_y)
    (hx : x < g.board_x) (hy : y < g.board_y) :
    (∃ g1 g2, g.toggle_cell x y = some (g1, true) ∧
      g1.toggle_cell x y = some (g2, true) ∧
      g2.board.getD (y * g.board_x + x) 0 =
        g.board.getD (y * g.board_x + x) 0) ∧
    (∃ g3, g.set_cell x y true = some (g3, true) ∧
      g3.set_cell x y true = some (g3, true)) := by
  have hidx : y * g.board_x + x < g.board.length := by
    rw [hlen]; exact flat_index_lt _ _ _ _ hx hy
  constructor
  · refine ⟨{ g with
        board := g.board.set (y * g.board_x + x)
          (1 - g.board.getD (y * g.board_x + x) 0) },
      { g with
        board := (g.board.set (y * g.board_x + x)
            (1 - g.board.getD (y * g.board_x + x) 0)).set
          (y * g.board_x + x)
          (1 - (1 - g.board.getD (y * g.board_x + x) 0)) },
      by simp [GameOfLife.toggle_cell, hrun, hidx], ?_, ?_⟩
    · simp [GameOfLife.toggle_cell, hrun, hidx,
        getD_set_self _ _ _ _ hidx]
    · rw [List.set_set, getD_set_self _ _ _ _ hidx]
      rcases getD_binary g.board hvals (y * g.board_x + x) with h0 | h1
      · rw [h0]
      · rw [h1]
  · refine ⟨{ g with
        board := g.board.set (y * g.board_x + x) 1 }, ?_, ?_⟩
    · simp [GameOfLife.set_cell, hrun, hidx]
    · simp [GameOfLife.set_cell, hrun, hidx, List.set_set]

/-- Witness for C9: the stopped 2×2 engine `[1,0,0,0]` at cell (0, 0). -/
theorem toggle_twice_and_set_idempotent_witness :
    (∃ g1 g2,
      GameOfLife.toggle_cell
        { running := false, board := [1, 0, 0, 0],
          board_x := 2, board_y := 2 } 0 0 = some (g1, true) ∧
      g1.toggle_cell 0 0 = some (g2, true) ∧
      g2.board.getD (0 * 2 + 0) 0 =
        List.getD [1, 0, 0, 0] (0 * 2 + 0) 0) ∧
    (∃ g3,
      GameOfLife.set_cell
        { running := false, board := [1, 0, 0, 0],
          board_x := 2, board_y := 2 } 0 0 true = some (g3, true) ∧
      g3.set_cell 0 0 true = some (g3, true)) :=
  toggle_twice_and_set_idempotent
    { running := false, board := [1, 0, 0, 0], board_x := 2, board_y := 2 }
    0 0 rfl (by decide) (by decide) (by decide) (by decide)

/-- C2: `get_neighbors` at the flat index of in-range coordinates
`(x, y)` yields exactly the flat indices of the spec's eight toroidal
neighbors — the nonzero offsets applied as `((x+dx) mod W, (y+dy) mod H)`
with the Euclidean modulus, column offsets wrapped by the width and row
offsets by the height; in particular, on a 3×3 board the neighborhood of
(0, 0) contains (2, 2), (2, 0) and (0, 2). -/
theorem neighbors_match_spec_toroidal (g : GameOfLife) (x y : Nat)
    (hx : x < g.board_x) (hy : y < g.board_y) :
    g.get_neighbors (y * g.board_x + x) =
      (specNeighbors g.board_x g.board_y x y).map
        (fun p => p.2 * g.board_x + p.1) ∧
    ((2, 2) ∈ specNeighbors 3 3 0 0 ∧ (2, 0) ∈ specNeighbors 3 3 0 0 ∧
      (0, 2) ∈ specNeighbors 3 3 0 0) ∧
    (2 * 3 + 2 ∈ (GameOfLife.new 3 3).get_neighbors 0 ∧
      0 * 3 + 2 ∈ (GameOfLife.new 3 3).get_neighbors 0 ∧
      2 * 3 + 0 ∈ (GameOfLife.new 3 3).get_neighbors 0) :=
  ⟨get_neighbors_eq_spec g x y hx hy, by decide, by decide⟩

/-- Witness for C2: instantiated on a 5×4 engine at (0, 0), whose
wrapped neighborhood reaches column 4 and row 3. -/
theorem neighbors_match_spec_toroidal_witness :
    ((GameOfLife.new 5 4).get_neighbors (0 * (GameOfLife.new 5 4).board_x + 0) =
      (specNeighbors (GameOfLife.new 5 4).board_x
          (GameOfLife.new 5 4).board_y 0 0).map
        (fun p => p.2 * (GameOfLife.new 5 4).board_x + p.1)) ∧
    ((2, 2) ∈ specNeighbors 3 3 0 0 ∧ (2, 0) ∈ specNeighbors 3 3 0 0 ∧
      (0, 2) ∈ specNeighbors 3 3 0 0) ∧
    (2 * 3 + 2 ∈ (GameOfLife.new 3 3).get_neighbors 0 ∧
      0 * 3 + 2 ∈ (GameOfLife.new 3 3).get_neighbors 0 ∧
      2 * 3 + 0 ∈ (GameOfLife.new 3 3).get_neighbors 0) :=
  neighbors_match_spec_toroidal (GameOfLife.new 5 4) 0 0
    (by decide) (by decide)

/-- C1: while Running, `step` replaces the grid (same length) and each
cell with toroidal live-neighbor count `n` — counted by the spec's rule
on the prior generation's board, which is exactly what the code reads —
becomes alive exactly when (it was alive and `n ∈ {2,3}`) or (it was
dead and `n = 3`). -/
theorem step_rule_matches_spec (g : GameOfLife) (x y : Nat)
    (hrun : g.running = true)
    (hvals : ∀ v ∈ g.board, v = 0 ∨ v = 1)
    (hlen : g.board.length = g.board_x * g.board_y)
    (hx : x < g.board_x) (hy : y < g.board_y) :
    g.step.board.length = g.board.length ∧
    (g.step.board.getD (y * g.board_x + x) 0 = 1 ↔
      (g.board.getD (y * g.board_x + x) 0 = 1 ∧
        (specLiveNeighborCount g x y = 2 ∨
          specLiveNeighborCount g x y = 3)) ∨
      (g.board.getD (y * g.board_x + x) 0 = 0 ∧
        specLiveNeighborCount g x y = 3)) := by
  have hidx : y * g.board_x + x < g.board.length := by
    rw [hlen]; exact flat_index_lt _ _ _ _ hx hy
  have hlc := liveCount_eq_spec g x y hvals hx hy
  have hlength : g.step.board.length = g.board.length := by
    simp [GameOfLife.step, hrun]
  refine ⟨hlength, ?_⟩
  have hval : g.step.board.getD (y * g.board_x + x) 0 =
      if g.board.getD (y * g.board_x + x) 0 = 1 ∧
          (2 ≤ g.liveCount (y * g.board_x + x) ∧
            g.liveCount (y * g.board_x + x) ≤ 3) ∨
        g.board.getD (y * g.board_x + x) 0 = 0 ∧
          g.liveCount (y * g.board_x + x) = 3
      then 1 else 0 := by
    rw [List.getD_eq_getElem _ _ (by rw [hlength]; exact hidx)]
    simp [GameOfLife.step, hrun, List.getElem_map, List.getElem_range]
  rw [hval, hlc]
  rcases getD_binary g.board hvals (y * g.board_x + x) with h | h <;>
    rw [h] <;> split <;> rename_i hc <;> omega

/-- A running 5×5 engine holding a horizontal blinker on row 2:
live cells at (1,2), (2,2), (3,2). -/
def blinker : GameOfLife :=
  { running := true
    board := [0, 0, 0, 0, 0,
              0, 0, 0, 0, 0,
              0, 1, 1, 1, 0,
              0, 0, 0, 0, 0,
              0, 0, 0, 0, 0]
    board_x := 5
    board_y := 5 }

/-- Witness for C1: the blinker's center cell (2, 2) survives with
exactly 2 live neighbors. -/
theorem step_rule_matches_spec_witness :
    blinker.step.board.length = blinker.board.length ∧
    (blinker.step.board.getD (2 * blinker.board_x + 2) 0 = 1 ↔
      (blinker.board.getD (2 * blinker.board_x + 2) 0 = 1 ∧
        (specLiveNeighborCount blinker 2 2 = 2 ∨
          specLiveNeighborCount blinker 2 2 = 3)) ∨
      (blinker.board.getD (2 * blinker.board_x + 2) 0 = 0 ∧
        specLiveNeighborCount blinker 2 2 = 3)) :=
  step_rule_matches_spec blinker 2 2 rfl (by decide) (by decide)
    (by decide) (by decide)

/-- `step` preserves the grid invariant. -/
theorem GridInv_step {g : GameOfLife} (hinv : GridInv g) :
    GridInv g.step := by
  obtain ⟨hvals, hlen⟩ := hinv
  unfold GridInv GameOfLife.step
  split
  · constructor
    · intro v hv
      simp only [List.mem_map, List.mem_range] at hv
      obtain ⟨i, -, rfl⟩ := hv
      split
      · right; rfl
      · left; rfl
    · simpa using hlen
  · exact ⟨hvals, hlen⟩

/-- `toggle_cell` preserves the grid invariant whenever it returns. -/
theorem GridInv_toggle {g g' : GameOfLife} {x y : Nat} {b : Bool}
    (hinv : GridInv g) (h : g.toggle_cell x y = some (g', b)) :
    GridInv g' := by
  obtain ⟨hvals, hlen⟩ := hinv
  unfold GameOfLife.toggle_cell at h
  split at h
  · obtain ⟨rfl, rfl⟩ : g = g' ∧ false = b := by simpa using h
    exact ⟨hvals, hlen⟩
  · split at h
    · obtain ⟨rfl, rfl⟩ :
          ({ g with
            board := g.board.set (y * g.board_x + x)
              (1 - g.board.getD (y * g.board_x + x) 0) } = g') ∧
            true = b := by
        simpa using h
      refine ⟨?_, by simpa [List.length_set] using hlen⟩
      intro v hv
      rcases List.mem_or_eq_of_mem_set hv with hv2 | rfl
      · exact hvals v hv2
      · rcases getD_binary g.board hvals (y * g.board_x + x) with h0 | h1 <;>
          omega
    · cases h

/-- `set_cell` preserves the grid invariant whenever it returns. -/
theorem GridInv_set {g g' : GameOfLife} {x y : Nat} {v : Bool} {b : Bool}
    (hinv : GridInv g) (h : g.set_cell x y v = some (g', b)) :
    GridInv g' := by
  obtain ⟨hvals, hlen⟩ := hinv
  unfold GameOfLife.set_cell at h
  split at h
  · obtain ⟨rfl, rfl⟩ : g = g' ∧ false = b := by simpa using h
    exact ⟨hvals, hlen⟩
  · split at h
    · obtain ⟨rfl, rfl⟩ :
          ({ g with
            board := g.board.set (y * g.board_x + x)
              (if v then 1 else 0) } = g') ∧ true = b := by
        simpa using h
      refine ⟨?_, by simpa [List.length_set] using hlen⟩
      intro w hw
      rcases List.mem_or_eq_of_mem_set hw with hw2 | rfl
      · exact hvals w hw2
      · split
        · right; rfl
        · left; rfl
    · cases h

/-- Every single operation preserves the grid invariant. -/
theorem GridInv_applyOp {g g' : GameOfLife} {op : Op}
    (hinv : GridInv g) (h : applyOp g op = some g') : GridInv g' := by
  cases op with
  | step =>
    obtain rfl : g.step = g' := by simpa [applyOp] using h
    exact GridInv_step hinv
  | start =>
    obtain rfl : g.start = g' := by simpa [applyOp] using h
    exact hinv
  | stop =>
    obtain rfl : g.stop = g' := by simpa [applyOp] using h
    exact hinv
  | toggle x y =>
    simp only [applyOp, Option.map_eq_some'] at h
    obtain ⟨⟨g1, b⟩, hp, rfl⟩ := h
    exact GridInv_toggle hinv hp
  | set x y v =>
    simp only [applyOp, Option.map_eq_some'] at h
    obtain ⟨⟨g1, b⟩, hp, rfl⟩ := h
    exact GridInv_set hinv hp

/-- Whole call sequences preserve the grid invariant. -/
theorem GridInv_run {ops : List Op} {g g' : GameOfLife}
    (hinv : GridInv g) (h : run g ops = some g') : GridInv g' := by
  induction ops generalizing g with
  | nil =>
    obtain rfl : g = g' := by simpa [run] using h
    exact hinv
  | cons op ops ih =>
    unfold run at h
    cases hop : applyOp g op with
    | none => rw [hop] at h; cases h
    | some g1 =>
      rw [hop] at h
      exact ih (GridInv_applyOp hinv hop) h

/-- C7: after any sequence of operations from a fresh engine, every grid
value is exactly 0 or 1 and the grid's length is `width * height`. -/
theorem reachable_grid_invariant (w h : Nat) (ops : List Op)
    (g' : GameOfLife)
    (hr : run (GameOfLife.new w h) ops = some g') :
    (∀ v ∈ g'.board, v = 0 ∨ v = 1) ∧
      g'.board.length = g'.board_x * g'.board_y := by
  have hinv : GridInv (GameOfLife.new w h) := by
    constructor
    · intro v hv
      exact Or.inl (List.eq_of_mem_replicate hv)
    · simp [GameOfLife.new]
  exact GridInv_run hinv hr

/-- The state a 2×2 engine reaches after toggle (0,0), start, step,
stop, set (1,1) to alive. -/
def sampleFinal : GameOfLife :=
  { running := false, board := [0, 0, 0, 1], board_x := 2, board_y := 2 }

/-- The sample call sequence leading to `sampleFinal`. -/
def sampleOps : List Op :=
  [Op.toggle 0 0, Op.start, Op.step, Op.stop, Op.set 1 1 true]

/-- Witness for C7: toggle, start, step, stop, set on a 2×2 engine. -/
theorem reachable_grid_invariant_witness :
    run (GameOfLife.new 2 2) sampleOps = some sampleFinal ∧
    ((∀ v ∈ sampleFinal.board, v = 0 ∨ v = 1) ∧
      sampleFinal.board.length =
        sampleFinal.board_x * sampleFinal.board_y) :=
  ⟨by decide,
    reachable_grid_invariant 2 2 sampleOps sampleFinal (by decide)⟩
